import Mathlib

/-!
Shallow embedding of the CHIP-8 emulator core (`src/chip8_core/src/lib.rs`).

Machine integers are modelled as `Nat`; the source's `u8`/`u16` values never
overflow on the paths modelled here except where noted, and every Rust panic
(implicit bounds-check or checked-arithmetic panic, and the `unimplemented!`
macro) is modelled as an `Except.error` carrying exactly the numeric
information the corresponding panic message interpolates.
-/

/-- Constant `SCREEN_WIDTH` from the source. -/
def SCREEN_WIDTH : Nat := 64

/-- Constant `SCREEN_HEIGHT` from the source. -/
def SCREEN_HEIGHT : Nat := 32

/-- Constant `RAM_SIZE` from the source. -/
def RAM_SIZE : Nat := 4096

/-- Constant `NUM_REGS` from the source. -/
def NUM_REGS : Nat := 16

/-- Constant `STACK_SIZE` from the source. -/
def STACK_SIZE : Nat := 16

/-- Constant `NUM_KEYS` from the source. -/
def NUM_KEYS : Nat := 16

/-- Constant `START_ADDR` from the source (`0x200`). -/
def START_ADDR : Nat := 0x200

/-- Constant `FONTSET_SIZE` from the source. -/
def FONTSET_SIZE : Nat := 80

/-- The `FONTSET` glyph table from the source, 80 bytes. -/
def FONTSET : List Nat :=
  [0xF0, 0x90, 0x90, 0x90, 0xF0,
   0x20, 0x60, 0x20, 0x20, 0x70,
   0xF0, 0x10, 0xF0, 0x80, 0xF0,
   0xF0, 0x10, 0xF0, 0x10, 0xF0,
   0x90, 0x90, 0xF0, 0x10, 0x10,
   0xF0, 0x80, 0xF0, 0x10, 0xF0,
   0xF0, 0x80, 0xF0, 0x90, 0xF0,
   0xF0, 0x10, 0x20, 0x40, 0x40,
   0xF0, 0x90, 0xF0, 0x90, 0xF0,
   0xF0, 0x90, 0xF0, 0x10, 0xF0,
   0xF0, 0x90, 0xF0, 0x90, 0x90,
   0xE0, 0x90, 0xE0, 0x90, 0xE0,
   0xF0, 0x80, 0x80, 0x80, 0xF0,
   0xE0, 0x90, 0x90, 0x90, 0xE0,
   0xF0, 0x80, 0xF0, 0x80, 0xF0,
   0xF0, 0x80, 0xF0, 0x80, 0x80]

/-- The `Emu` struct from the source.  Fixed-size arrays are modelled as
functions from (in-range) indices; field names follow the source. -/
@[ext]
structure Emu where
  pc : Nat
  ram : Nat → Nat
  screen : Nat → Bool
  v_reg : Nat → Nat
  i_reg : Nat
  sp : Nat
  stack : Nat → Nat
  keys : Nat → Bool
  dt : Nat
  st : Nat

/-- Ram contents after `ram = [0; RAM_SIZE]` followed by
`ram[..FONTSET_SIZE].copy_from_slice(&FONTSET)`: the font table in bytes
`0..FONTSET_SIZE`, zero elsewhere. -/
def initRam : Nat → Nat :=
  fun i => if i < FONTSET_SIZE then FONTSET.getD i 0 else 0

/-- `Emu::new()`: every field zeroed except `pc = START_ADDR`, then the font
is copied into the low bytes of ram. -/
def Emu.new : Emu :=
  { pc := START_ADDR
    ram := initRam
    screen := fun _ => false
    v_reg := fun _ => 0
    i_reg := 0
    sp := 0
    stack := fun _ => 0
    keys := fun _ => false
    dt := 0
    st := 0 }

/-- `Emu::reset()`: reassigns every field exactly as the constructor does
(including re-copying the font into ram). -/
def Emu.reset (_e : Emu) : Emu :=
  { pc := START_ADDR
    ram := initRam
    screen := fun _ => false
    v_reg := fun _ => 0
    i_reg := 0
    sp := 0
    stack := fun _ => 0
    keys := fun _ => false
    dt := 0
    st := 0 }

/-- Information content of a Rust panic along the modelled paths:
`indexOutOfBounds len idx` is the implicit bounds-check panic (its message
interpolates the array length and the failing index); `subtractOverflow` is
the debug-mode checked-arithmetic panic on `u16` underflow (its message
interpolates no numbers); `unimplementedOpcode op` is the
`unimplemented!("Unimplemented opcode: {}", op)` panic. -/
inductive Chip8Err where
  | indexOutOfBounds (len idx : Nat)
  | subtractOverflow
  | unimplementedOpcode (op : Nat)

/-- The numbers a diagnostic's message interpolates (in order). -/
def Chip8Err.payload : Chip8Err → List Nat
  | .indexOutOfBounds len idx => [len, idx]
  | .subtractOverflow => []
  | .unimplementedOpcode op => [op]

/-- `Emu::push`: `stack[sp] = val; sp += 1`.  The store carries Rust's
implicit bounds check on `stack` (length `STACK_SIZE`); `sp + 1` cannot
overflow `u16` once the bounds check has passed (`sp < 16`). -/
def Emu.push (e : Emu) (val : Nat) : Except Chip8Err Emu :=
  if e.sp < STACK_SIZE then
    Except.ok { e with stack := fun j => if j = e.sp then val else e.stack j
                       sp := e.sp + 1 }
  else
    Except.error (Chip8Err.indexOutOfBounds STACK_SIZE e.sp)

/-- `Emu::pop`: `sp -= 1; stack[sp]`.  With `sp = 0` the `u16` subtraction
panics (debug-mode checked arithmetic); otherwise the read carries the
implicit bounds check on `stack`. -/
def Emu.pop (e : Emu) : Except Chip8Err (Nat × Emu) :=
  if e.sp = 0 then
    Except.error Chip8Err.subtractOverflow
  else
    if e.sp - 1 < STACK_SIZE then
      Except.ok (e.stack (e.sp - 1), { e with sp := e.sp - 1 })
    else
      Except.error (Chip8Err.indexOutOfBounds STACK_SIZE (e.sp - 1))

/-- `Emu::fetch`: read `ram[pc]` and `ram[pc + 1]` (each with Rust's implicit
bounds check on `ram`, length `RAM_SIZE`), combine big-endian with
`(higher_byte << 8) | lower_byte`, then `pc += 2`.  The `u16` additions
`pc + 1` and `pc + 2` cannot overflow once `pc < RAM_SIZE = 4096` holds, so
their checked-arithmetic panics are unreachable and not modelled. -/
def Emu.fetch (e : Emu) : Except Chip8Err (Nat × Emu) :=
  if e.pc < RAM_SIZE then
    let higher_byte := e.ram e.pc
    if e.pc + 1 < RAM_SIZE then
      let lower_byte := e.ram (e.pc + 1)
      let op := (higher_byte <<< 8) ||| lower_byte
      Except.ok (op, { e with pc := e.pc + 2 })
    else
      Except.error (Chip8Err.indexOutOfBounds RAM_SIZE (e.pc + 1))
  else
    Except.error (Chip8Err.indexOutOfBounds RAM_SIZE e.pc)

/-- `Emu::tick_timers`: decrement `dt` if positive; decrement `st` if
positive (the `st == 1` branch holds only the BEEP comment and has no
state effect). -/
def Emu.tickTimers (e : Emu) : Emu :=
  let e1 := if e.dt > 0 then { e with dt := e.dt - 1 } else e
  if e1.st > 0 then { e1 with st := e1.st - 1 } else e1

/-- `Emu::execute`: split `op` into four nibbles, then match on them.  Rust
match arms are tried top-down and the first matching arm wins; the source
places the catch-all `(_, _, _, _) => unimplemented!(..)` as the second arm,
so the three arms written after it — `(0, 0, 0xE, 0)` clear-screen,
`(0, 0, 0xE, 0xE)` return, `(1, _, _, _)` jump — are unreachable dead code
(the Rust compiler flags them as unreachable patterns) and contribute no
behaviour to this embedding. -/
def Emu.execute (e : Emu) (op : Nat) : Except Chip8Err Emu :=
  let digit1 := (op &&& 0xF000) >>> 12
  let digit2 := (op &&& 0x0F00) >>> 8
  let digit3 := (op &&& 0x00F0) >>> 4
  let digit4 := op &&& 0x000F
  if digit1 = 0 ∧ digit2 = 0 ∧ digit3 = 0 ∧ digit4 = 0 then
    Except.ok e
  else
    Except.error (Chip8Err.unimplementedOpcode op)

/-- `Emu::tick`: fetch (which advances `pc`), then decode and execute; a
panic inside fetch aborts the step. -/
def Emu.tick (e : Emu) : Except Chip8Err Emu :=
  match Emu.fetch e with
  | Except.ok (op, e1) => Emu.execute e1 op
  | Except.error err => Except.error err

/-- Push each value of `vs` in order (harness definition for the stack
round-trip property); a panic aborts the sequence. -/
def Emu.pushManyE : Emu → List Nat → Except Chip8Err Emu
  | e, [] => Except.ok e
  | e, v :: vs =>
      match Emu.push e v with
      | Except.ok e1 => Emu.pushManyE e1 vs
      | Except.error err => Except.error err

/-- Pop `n` times, collecting the popped values in pop order (harness
definition for the stack round-trip property); a panic aborts the
sequence. -/
def Emu.popManyE : Emu → Nat → Except Chip8Err (List Nat × Emu)
  | e, 0 => Except.ok ([], e)
  | e, n + 1 =>
      match Emu.popManyE e n with
      | Except.ok (vs, e1) =>
          match Emu.pop e1 with
          | Except.ok (v, e2) => Except.ok (vs ++ [v], e2)
          | Except.error err => Except.error err
      | Except.error err => Except.error err

/-- Push all of `vs`, then pop the same number of times. -/
def Emu.pushPopRound (e : Emu) (vs : List Nat) : Except Chip8Err (List Nat × Emu) :=
  match Emu.pushManyE e vs with
  | Except.ok e1 => Emu.popManyE e1 vs.length
  | Except.error err => Except.error err

/-- Formalisation of the claim's notion of a defined instruction pattern:
the exact words `0x00E0` and `0x00EE`, and every word whose leading nibble
is `1`. -/
def matchesDefined (op : Nat) : Prop :=
  op = 0x00E0 ∨ op = 0x00EE ∨ (op &&& 0xF000) >>> 12 = 1

/-- Concrete state with bytes `0x12`, `0x34` at addresses `0x200`, `0x201`. -/
def fetchDemo : Emu :=
  { Emu.new with ram := fun i => if i = 0x200 then 0x12 else if i = 0x201 then 0x34 else 0 }

/-- Concrete state with the program word `0x2210` (call `0x210`) at `0x200`
and `0x00EE` (return) at `0x210`, as loaded over the constructed state. -/
def callDemo : Emu :=
  { Emu.new with ram := fun i =>
      if i = 0x200 then 0x22 else if i = 0x201 then 0x10 else
      if i = 0x210 then 0x00 else if i = 0x211 then 0xEE else initRam i }

/-- Concrete state whose call stack is full (`sp` at capacity). -/
def fullStackDemo : Emu := { Emu.new with sp := 16 }

/-- Concrete state whose `pc` makes `pc + 1` fall outside ram bounds. -/
def oobPcDemo : Emu := { Emu.new with pc := 4095 }

/-- A masked nibble extraction equals the corresponding div/mod form. -/
theorem nibble_shift_eq (k op : Nat) :
    (op &&& (15 <<< k)) >>> k = op / 2 ^ k % 16 := by
  have h16 : (16 : Nat) = 2 ^ 4 := by norm_num
  apply Nat.eq_of_testBit_eq
  intro i
  rw [h16, ← Nat.shiftRight_eq_div_pow]
  simp only [Nat.testBit_shiftRight, Nat.testBit_and, Nat.testBit_shiftLeft,
    Nat.testBit_mod_two_pow]
  have h15 : (15 : Nat) = 2 ^ 4 - 1 := by norm_num
  rw [h15, Nat.testBit_two_pow_sub_one]
  have hk : k + i - k = i := by omega
  have hge : k ≤ k + i := by omega
  simp [hk, hge]
  cases op.testBit (k + i) <;> simp

/-- The leading nibble of the source's decode equals `op / 4096 % 16`. -/
theorem digit1_div (op : Nat) : (op &&& 0xF000) >>> 12 = op / 4096 % 16 := by
  have h : (0xF000 : Nat) = 15 <<< 12 := by decide
  have h2 : (4096 : Nat) = 2 ^ 12 := by norm_num
  rw [h, h2, nibble_shift_eq]

/-- The second nibble of the source's decode equals `op / 256 % 16`. -/
theorem digit2_div (op : Nat) : (op &&& 0x0F00) >>> 8 = op / 256 % 16 := by
  have h : (0x0F00 : Nat) = 15 <<< 8 := by decide
  have h2 : (256 : Nat) = 2 ^ 8 := by norm_num
  rw [h, h2, nibble_shift_eq]

/-- The third nibble of the source's decode equals `op / 16 % 16`. -/
theorem digit3_div (op : Nat) : (op &&& 0x00F0) >>> 4 = op / 16 % 16 := by
  have h : (0x00F0 : Nat) = 15 <<< 4 := by decide
  have h2 : (16 : Nat) = 2 ^ 4 := by norm_num
  rw [h, nibble_shift_eq, h2]

/-- The trailing nibble of the source's decode equals `op % 16`. -/
theorem digit4_div (op : Nat) : op &&& 0x000F = op % 16 := by
  have h : (0x000F : Nat) = 2 ^ 4 - 1 := by norm_num
  rw [h, Nat.and_pow_two_sub_one_eq_mod]

/-- A 16-bit word all of whose decoded nibbles are zero is the word zero. -/
theorem digits_zero_imp (op : Nat) (hlt : op < 65536)
    (h1 : (op &&& 0xF000) >>> 12 = 0) (h2 : (op &&& 0x0F00) >>> 8 = 0)
    (h3 : (op &&& 0x00F0) >>> 4 = 0) (h4 : op &&& 0x000F = 0) : op = 0 := by
  rw [digit1_div] at h1
  rw [digit2_div] at h2
  rw [digit3_div] at h3
  rw [digit4_div] at h4
  omega

/-- Big-endian combination: shifting the high byte and or-ing the low byte
equals `high * 256 + low` whenever the low byte is in byte range. -/
theorem shiftLeft_or_byte (h l : Nat) (hl : l < 256) :
    (h <<< 8) ||| l = h * 256 + l := by
  have h2 : (256 : Nat) = 2 ^ 8 := by norm_num
  rw [Nat.shiftLeft_eq, h2, Nat.mul_comm h (2 ^ 8), ← Nat.mul_add_lt_is_or (by omega) h,
    Nat.mul_comm (2 ^ 8) h]

/-- Claim C1 (code bug): the source places the catch-all match arm second,
before the specific arms, so words matching the defined patterns 0x00E0
(clear screen), 0x00EE (return) and leading-nibble-1 (jump, e.g. 0x1234)
all reach the unknown-opcode catch-all instead of their specific
semantics. -/
theorem dispatch_catch_all_shadows_specific_arms (e : Emu) :
    Emu.execute e 0x00E0 = Except.error (Chip8Err.unimplementedOpcode 0x00E0) ∧
    Emu.execute e 0x00EE = Except.error (Chip8Err.unimplementedOpcode 0x00EE) ∧
    Emu.execute e 0x1234 = Except.error (Chip8Err.unimplementedOpcode 0x1234) :=
  ⟨rfl, rfl, rfl⟩

/-- Claim C2, counterexample: a step on the instruction word 0x0000 (the
constructed state has 0x0000 at `pc = 0x200`) succeeds as a silent no-op
instead of producing the fatal unknown-opcode condition. -/
theorem step_on_zero_word_is_silent_noop :
    Emu.tick Emu.new = Except.ok { Emu.new with pc := 0x202 } := rfl

/-- Claim C2 as amended: every instruction word other than 0x0000 that
matches none of the defined patterns produces the fatal unknown-opcode
condition, never a silent no-op; the word 0x0000 alone is a silent no-op. -/
theorem nonzero_unmatched_word_is_fatal (e : Emu) (op : Nat)
    (hlt : op < 65536) (hnz : op ≠ 0) (_hnm : ¬ matchesDefined op) :
    Emu.execute e op = Except.error (Chip8Err.unimplementedOpcode op) := by
  have hcond : ¬ ((op &&& 0xF000) >>> 12 = 0 ∧ (op &&& 0x0F00) >>> 8 = 0 ∧
      (op &&& 0x00F0) >>> 4 = 0 ∧ op &&& 0x000F = 0) := by
    intro hall
    exact hnz (digits_zero_imp op hlt hall.1 hall.2.1 hall.2.2.1 hall.2.2.2)
  simp only [Emu.execute]
  rw [if_neg hcond]

/-- Witness for the amended claim C2 at the concrete word 0x5000. -/
theorem nonzero_unmatched_word_is_fatal_witness :
    ((0x5000 : Nat) < 65536 ∧ (0x5000 : Nat) ≠ 0 ∧ ¬ matchesDefined 0x5000) ∧
    Emu.execute Emu.new 0x5000 = Except.error (Chip8Err.unimplementedOpcode 0x5000) :=
  ⟨⟨by decide, by decide, by unfold matchesDefined; decide⟩,
   nonzero_unmatched_word_is_fatal Emu.new 0x5000 (by decide) (by decide)
     (by unfold matchesDefined; decide)⟩

/-- Claim C3 (code bug): executing a step whose instruction word is 0x00E0
(clear screen) panics as an unimplemented opcode — for every prior display
state — instead of clearing the display, because the catch-all arm precedes
the clear-screen arm. -/
theorem clear_screen_word_panics_instead_of_clearing (scr : Nat → Bool) :
    Emu.tick { Emu.new with
               screen := scr
               ram := fun i => if i = 0x201 then 0xE0 else initRam i } =
      Except.error (Chip8Err.unimplementedOpcode 0x00E0) := by
  norm_num [Emu.tick, Emu.fetch, Emu.execute, Emu.new, initRam, RAM_SIZE,
    START_ADDR, FONTSET_SIZE, FONTSET]
  intro _ _ h _
  exact absurd h (by decide)

/-- Claim C4 (code bug): with the word 0x2210 (call 0x210) loaded at 0x200,
the first step panics as an unimplemented opcode instead of pushing the
post-fetch `pc` and jumping — the call instruction has no arm and the
catch-all precedes everything nonzero. -/
theorem call_word_panics_instead_of_calling :
    Emu.tick callDemo = Except.error (Chip8Err.unimplementedOpcode 0x2210) := rfl

/-- Claim C5: fetch reads the bytes at `pc` and `pc + 1`, combines them
big-endian (`high * 256 + low`), and advances `pc` by exactly 2. -/
theorem fetch_big_endian_advances_pc (e : Emu) (h : e.pc + 1 < RAM_SIZE)
    (hl : e.ram (e.pc + 1) < 256) :
    Emu.fetch e =
      Except.ok (e.ram e.pc * 256 + e.ram (e.pc + 1), { e with pc := e.pc + 2 }) := by
  have h4096 : RAM_SIZE = 4096 := rfl
  have hpc : e.pc < RAM_SIZE := by omega
  have key := shiftLeft_or_byte (e.ram e.pc) (e.ram (e.pc + 1)) hl
  simp [Emu.fetch, hpc, h, key]

/-- Witness for claim C5: bytes 0x12, 0x34 at 0x200, 0x201 fetch as the word
0x1234 and leave `pc = 0x202`. -/
theorem fetch_big_endian_advances_pc_witness :
    (fetchDemo.pc + 1 < RAM_SIZE ∧ fetchDemo.ram (fetchDemo.pc + 1) < 256) ∧
    Emu.fetch fetchDemo = Except.ok (0x1234, { fetchDemo with pc := 0x202 }) :=
  ⟨⟨by decide, by decide⟩, by
    rw [fetch_big_endian_advances_pc fetchDemo (by decide) (by decide)]
    rfl⟩

/-- Claim C6, counterexample: the call-stack-underflow condition (pop with
`sp = 0`) halts with the checked-subtraction panic, whose diagnostic
interpolates no numbers at all — so it identifies neither the failing
address nor the raw instruction word. -/
theorem pop_underflow_diagnostic_names_no_numbers :
    Emu.pop Emu.new = Except.error Chip8Err.subtractOverflow ∧
    Chip8Err.payload Chip8Err.subtractOverflow = [] :=
  ⟨rfl, rfl⟩

/-- Claim C6 as amended: each fatal condition — push with the stack at
capacity, pop with an empty stack, and a fetch whose `pc + 1` lies outside
ram bounds — halts the operation with an error rather than being silently
skipped or wrapped around; the diagnostics carry at most the out-of-range
index, not the raw instruction word. -/
theorem fatal_conditions_halt_operation (e : Emu) :
    (e.sp = STACK_SIZE → ∀ v, Emu.push e v =
        Except.error (Chip8Err.indexOutOfBounds STACK_SIZE STACK_SIZE)) ∧
    (e.sp = 0 → Emu.pop e = Except.error Chip8Err.subtractOverflow) ∧
    (4095 ≤ e.pc → Emu.fetch e =
        Except.error (Chip8Err.indexOutOfBounds RAM_SIZE (max e.pc RAM_SIZE))) := by
  have h4096 : RAM_SIZE = 4096 := rfl
  refine ⟨?_, ?_, ?_⟩
  · intro hsp v
    simp [Emu.push, hsp]
  · intro hsp
    simp [Emu.pop, hsp]
  · intro hpc
    rcases Nat.lt_or_ge e.pc RAM_SIZE with hlt | hge
    · have hpc1 : ¬ (e.pc + 1 < RAM_SIZE) := by omega
      have hmax : max e.pc RAM_SIZE = e.pc + 1 := by omega
      simp [Emu.fetch, hlt, hpc1, hmax]
    · have hnlt : ¬ (e.pc < RAM_SIZE) := by omega
      have hmax : max e.pc RAM_SIZE = e.pc := by omega
      simp [Emu.fetch, hnlt, hmax]

/-- Witness for the amended claim C6 at concrete states: a full stack, the
fresh (empty-stack) state, and `pc = 4095`. -/
theorem fatal_conditions_halt_operation_witness :
    Emu.push fullStackDemo 7 =
      Except.error (Chip8Err.indexOutOfBounds STACK_SIZE STACK_SIZE) ∧
    Emu.pop Emu.new = Except.error Chip8Err.subtractOverflow ∧
    Emu.fetch oobPcDemo =
      Except.error (Chip8Err.indexOutOfBounds RAM_SIZE (max oobPcDemo.pc RAM_SIZE)) :=
  ⟨(fatal_conditions_halt_operation fullStackDemo).1 rfl 7,
   (fatal_conditions_halt_operation Emu.new).2.1 rfl,
   (fatal_conditions_halt_operation oobPcDemo).2.2 (by decide)⟩

/-- Claim C7: `reset` yields exactly the constructed state for every machine
state; consequently `reset` is idempotent, and after `reset` the font bytes
at the reserved offsets equal the fixed glyph table. -/
theorem reset_restores_constructed_state (e : Emu) :
    Emu.reset e = Emu.new ∧
    Emu.reset (Emu.reset e) = Emu.reset e ∧
    ∀ i, i < FONTSET_SIZE → (Emu.reset e).ram i = FONTSET.getD i 0 := by
  refine ⟨rfl, rfl, ?_⟩
  intro i hi
  simp [Emu.reset, initRam, hi]

/-- Witness for claim C7 at the constructed state and font offset 0. -/
theorem reset_restores_constructed_state_witness :
    Emu.reset Emu.new = Emu.new ∧ 0 < FONTSET_SIZE ∧
    (Emu.reset Emu.new).ram 0 = FONTSET.getD 0 0 :=
  ⟨(reset_restores_constructed_state Emu.new).1, by decide,
   (reset_restores_constructed_state Emu.new).2.2 0 (by decide)⟩

/-- Claim C9: `tick_timers` decrements each timer by exactly 1 when it is
positive and leaves it unchanged (at zero, with no wrap-around) when it is
already zero. -/
theorem tick_timers_decrement_toward_zero (e : Emu) :
    (Emu.tickTimers e).dt = (if 0 < e.dt then e.dt - 1 else e.dt) ∧
    (Emu.tickTimers e).st = (if 0 < e.st then e.st - 1 else e.st) := by
  unfold Emu.tickTimers
  by_cases h1 : 0 < e.dt <;> by_cases h2 : 0 < e.st <;> simp [h1, h2]

/-- Claim C10: a step on the instruction word 0x0000 advances `pc` by
exactly 2 and leaves every other machine field unchanged. -/
theorem step_on_zero_word_advances_pc_only (e : Emu)
    (h : e.pc + 1 < RAM_SIZE) (h0 : e.ram e.pc = 0) (h1 : e.ram (e.pc + 1) = 0) :
    Emu.tick e = Except.ok { e with pc := e.pc + 2 } := by
  have h4096 : RAM_SIZE = 4096 := rfl
  have hpc : e.pc < RAM_SIZE := by omega
  simp [Emu.tick, Emu.fetch, Emu.execute, hpc, h, h0, h1]

/-- Witness for claim C10 at the constructed state (word 0x0000 at 0x200). -/
theorem step_on_zero_word_advances_pc_only_witness :
    (Emu.new.pc + 1 < RAM_SIZE ∧ Emu.new.ram Emu.new.pc = 0 ∧
      Emu.new.ram (Emu.new.pc + 1) = 0) ∧
    Emu.tick Emu.new = Except.ok { Emu.new with pc := Emu.new.pc + 2 } :=
  ⟨⟨by decide, by decide, by decide⟩,
   step_on_zero_word_advances_pc_only Emu.new (by decide) (by decide) (by decide)⟩

/-- Pushing a list within capacity succeeds, raises `sp` by the list length,
preserves stack entries below the original `sp`, and popping the same count
afterwards returns the pushed values reversed with `sp` restored. -/
theorem pushManyE_spec (vs : List Nat) :
    ∀ e : Emu, e.sp + vs.length ≤ STACK_SIZE →
    ∃ e2, Emu.pushManyE e vs = Except.ok e2 ∧
      e2.sp = e.sp + vs.length ∧
      (∀ j, j < e.sp → e2.stack j = e.stack j) ∧
      Emu.popManyE e2 vs.length = Except.ok (vs.reverse, { e2 with sp := e.sp }) := by
  induction vs with
  | nil =>
    intro e _
    exact ⟨e, rfl, rfl, fun j _ => rfl, rfl⟩
  | cons v vs ih =>
    intro e h
    simp only [List.length_cons] at h
    have hss : STACK_SIZE = 16 := rfl
    have hsp : e.sp < STACK_SIZE := by omega
    set e1 : Emu := { e with stack := fun j => if j = e.sp then v else e.stack j
                             sp := e.sp + 1 } with he1
    have hsp1 : e1.sp = e.sp + 1 := rfl
    have hstack1 : ∀ j, e1.stack j = if j = e.sp then v else e.stack j := fun j => rfl
    have hpush : Emu.push e v = Except.ok e1 := by
      simp [Emu.push, hsp, he1]
    obtain ⟨e2, hp2, hsp2, hpres2, hpop2⟩ := ih e1 (by omega)
    refine ⟨e2, ?_, by simp only [List.length_cons]; omega, ?_, ?_⟩
    · simp [Emu.pushManyE, hpush, hp2]
    · intro j hj
      rw [hpres2 j (by omega), hstack1]
      simp [Nat.ne_of_lt hj]
    · have hv : e2.stack e.sp = v := by
        rw [hpres2 e.sp (by omega), hstack1]
        simp
      have hpoptop : Emu.pop { e2 with sp := e.sp + 1 } =
          Except.ok (v, { e2 with sp := e.sp }) := by
        simp [Emu.pop, hv]
        omega
      simp only [List.length_cons, List.reverse_cons, Emu.popManyE, hpop2, hsp1, hpoptop]

/-- Claim C8: for any sequence of pushes that stays within the stack
capacity of 16, followed by an equal number of pops, the pops return the
pushed values in strict LIFO order (the reversed push sequence) and the
stack pointer returns to its pre-push value. -/
theorem stack_push_pop_lifo_round_trip (e : Emu) (vs : List Nat)
    (h : e.sp + vs.length ≤ STACK_SIZE) :
    (Emu.pushPopRound e vs).map (fun r => (r.1, r.2.sp)) =
      Except.ok (vs.reverse, e.sp) := by
  obtain ⟨e2, hp, _, _, hpop⟩ := pushManyE_spec vs e h
  simp [Emu.pushPopRound, hp, hpop, Except.map]

/-- Witness for claim C8: pushing 1, 2, 3 on the fresh state and popping
three times returns 3, 2, 1 with the stack pointer back at 0. -/
theorem stack_push_pop_lifo_round_trip_witness :
    (Emu.new.sp + [1, 2, 3].length ≤ STACK_SIZE) ∧
    (Emu.pushPopRound Emu.new [1, 2, 3]).map (fun r => (r.1, r.2.sp)) =
      Except.ok ([3, 2, 1], 0) :=
  ⟨by decide, by
    rw [stack_push_pop_lifo_round_trip Emu.new [1, 2, 3] (by decide)]
    rfl⟩
